import Mathlib

/-!
# Verification of the tsuru App aggregate (`api/app/app.go`)

A shallow embedding of the in-memory operations of the `App` aggregate:
unit reconciliation, team access control, environment variables, the
`Destroy` workflow over stubbed collaborators and the `app.conf` retrieval.

Conventions of the embedding:
* a Go `error` is an `Option String` (`none` is `nil`, `errors.New m` is `some m`);
* a Go slice is a `List`, a nil-able Go map is an `Option` of an association list;
* a function that can hit a Go runtime panic returns an `Outcome`.
-/

set_option autoImplicit false

/-- Go error values: `nil` is `none`, `errors.New m` is `some m`. -/
abbrev Error := Option String

/-- Result of running Go code that may hit a runtime panic. -/
inductive Outcome (α : Type) where
  | returned (v : α)
  | panicked (msg : String)
  deriving DecidableEq, Repr

/-- Go slice indexing `s[i]` with a signed index: outside `0 ≤ i < len(s)` it panics (`none`). -/
def sliceIndex {α : Type} (s : List α) (i : Int) : Option α :=
  if i < 0 then none else s[i.toNat]?

namespace unit

/-- Modelled from the spec: the `unit.Unit` record (package `api/unit`), with the fields
the spec lists: `InstanceId` (identity), `Ip`, `AgentState`, `InstanceState`, `Machine`. -/
structure Unit where
  InstanceId : String
  Ip : String
  AgentState : String
  InstanceState : String
  Machine : Int
  deriving DecidableEq, Repr

/-- The zero value `unit.Unit{}`. -/
def Unit.zero : Unit := ⟨"", "", "", "", 0⟩

end unit

namespace auth

/-- Modelled from the spec: the `auth.Team` record (package `api/auth`); only its `Name`
is read by the code under study. -/
structure Team where
  Name : String
  deriving DecidableEq, Repr

end auth

namespace strings

/-- Go `strings.HasPrefix` on character lists. -/
def startsWith : List Char → List Char → Bool
  | _, [] => true
  | [], _ :: _ => false
  | c :: s, d :: p => c == d && startsWith s p

/-- Left-to-right scan of `strings.Split` for a non-empty separator: `skip` counts the
separator characters still to be consumed, `cur` is the current segment, reversed. -/
def splitLoop (sep : List Char) : List Char → Nat → List Char → List (List Char)
  | [], _, cur => [cur.reverse]
  | _ :: rest, skip + 1, cur => splitLoop sep rest skip cur
  | c :: rest, 0, cur =>
    if startsWith (c :: rest) sep then cur.reverse :: splitLoop sep rest (sep.length - 1) []
    else splitLoop sep rest 0 (c :: cur)

/-- Go `strings.Split(s, sep)` for a non-empty `sep`: the substrings of `s` between the
non-overlapping occurrences of `sep`, found left to right. -/
def Split (s sep : String) : List String :=
  (splitLoop sep.data s.data 0 []).map String.mk

end strings

namespace app

/-- The separator constant `confSep`. -/
def confSep : String := "========"

/-- The `EnvVar` record. -/
structure EnvVar where
  Name : String
  Value : String
  Public : Bool
  ServiceName : String
  deriving DecidableEq, Repr

/-- The zero value `EnvVar{}`. -/
def EnvVar.zero : EnvVar := ⟨"", "", false, ""⟩

/-- The method `(e *EnvVar) String()`: `fmt.Sprintf("%s=%s%s", e.Name, value, suffix)`. -/
def EnvVar.String (e : EnvVar) : String :=
  let (value, suffix) := if e.Public then (e.Value, "") else ("***", " (private variable)")
  e.Name ++ "=" ++ value ++ suffix

/-- The `Log` record; `Date` is the clock reading at the time of the entry. -/
structure Log where
  Date : Nat
  Message : String
  deriving DecidableEq, Repr

/-- The `conf` record read from `app.conf`. -/
structure conf where
  PreRestart : String
  PosRestart : String
  deriving DecidableEq, Repr

/-- The `App` aggregate. `Env` is a Go map: `none` is the nil map, `some l` holds the
bindings, at most one per key. The `fsystem` handle is not part of the model. -/
structure App where
  Env : Option (List (String × EnvVar))
  Framework : String
  Name : String
  State : String
  Units : List unit.Unit
  Teams : List String
  Logs : List Log
  deriving DecidableEq, Repr

/-- The method `(a *App) unit()`: the first unit, or the zero unit. -/
def App.unit (a : App) : unit.Unit :=
  match a.Units with
  | u :: _ => u
  | [] => unit.Unit.zero

/-- The method `(a *App) Log(message)`, on the aggregate in memory: appends the entry
stamped with the clock reading `now`. The store update it issues is outside this model
(no caller here looks at its result). -/
def App.Log (a : App) (now : Nat) (message : String) : App :=
  { a with Logs := a.Logs ++ [⟨now, message⟩] }

/-- The loop of `AddOrUpdateUnit`: `some` of the updated slice when an entry with the
`InstanceId` of `u` is met (the first one is overwritten, then the method returns),
`none` when the loop runs to the end. -/
def addOrUpdateLoop (u : unit.Unit) : List unit.Unit → Option (List unit.Unit)
  | [] => none
  | unt :: rest =>
    if unt.InstanceId = u.InstanceId then
      some ({ unt with Ip := u.Ip, AgentState := u.AgentState,
                       InstanceState := u.InstanceState } :: rest)
    else (addOrUpdateLoop u rest).map (fun l => unt :: l)

/-- The method `(a *App) AddOrUpdateUnit(u)`. -/
def App.AddOrUpdateUnit (a : App) (u : unit.Unit) : App :=
  match addOrUpdateLoop u a.Units with
  | some l => { a with Units := l }
  | none => { a with Units := a.Units ++ [u] }

/-- The loop of `findTeam`, started at index `i`. -/
def findTeamLoop (name : String) : List String → Nat → Int
  | [], _ => -1
  | t :: ts, i => if t = name then (i : Int) else findTeamLoop name ts (i + 1)

/-- The method `(a *App) findTeam(team)`: index of the first entry equal to the
team name, or `-1`. -/
def App.findTeam (a : App) (team : auth.Team) : Int :=
  findTeamLoop team.Name a.Teams 0

/-- The method `(a *App) hasTeam(team)`. -/
def App.hasTeam (a : App) (team : auth.Team) : Bool :=
  decide (a.findTeam team > -1)

/-- The method `(a *App) GrantAccess(team)`: the returned error and the aggregate after
the call. -/
def App.GrantAccess (a : App) (team : auth.Team) : Error × App :=
  if a.hasTeam team then
    (some "This team has already access to this app", a)
  else
    (none, { a with Teams := a.Teams ++ [team.Name] })

/-- The method `(a *App) RevokeAccess(team)`: swap the last entry into the
found position, then cut the slice by one. The two slice accesses are Go indexings,
which panic when out of range. -/
def App.RevokeAccess (a : App) (team : auth.Team) : Outcome (Error × App) :=
  let index := a.findTeam team
  if index < 0 then
    .returned (some "This team does not have access to this app", a)
  else
    let last : Int := (a.Teams.length : Int) - 1
    match sliceIndex a.Teams last, sliceIndex a.Teams index with
    | some t, some _ =>
      .returned (none, { a with Teams := (a.Teams.set index.toNat t).take last.toNat })
    | _, _ => .panicked "index out of range"

/-- The method `(a *App) SetEnv(name, value, public)`; `now` is the clock reading used
by the log entry. -/
def App.SetEnv (a : App) (now : Nat) (name value : String) (pub : Bool) : App :=
  let m : List (String × EnvVar) := match a.Env with
    | none => []
    | some l => l
  let env : EnvVar := { Name := name, Value := value, Public := pub, ServiceName := "" }
  let a1 : App := { a with Env := some ((name, env) :: m.filter (fun p => p.1 ≠ name)) }
  a1.Log now ("setting env " ++ name ++ " with value " ++ value)

/-- The method `(a *App) GetEnv(name)`: the stored variable and `nil`, or the zero
variable and the "not declared" error. -/
def App.GetEnv (a : App) (name : String) : EnvVar × Error :=
  let found : Option EnvVar := match a.Env with
    | none => none
    | some l => l.lookup name
  match found with
  | some env => (env, none)
  | none => (EnvVar.zero, some "Environment variable not declared for this app.")

/-- The calls `Destroy` makes on its collaborators, in the order they are made. -/
inductive Call where
  /-- The call `db.Session.Apps().Remove(bson.M{"name": name})`. -/
  | storeRemove (name : String)
  /-- The `go func` that removes the bare repository of the app: dispatched, not awaited. -/
  | goCleanup (name : String)
  /-- The call `exec.Command(argv...).CombinedOutput()`. -/
  | exec (argv : List String)
  /-- The call `log.Printf(msg)`. -/
  | logPrintf (msg : String)
  deriving DecidableEq, Repr

/-- Stubs for the collaborators of `Destroy`: the store (its contents have type `σ`) and
the process runner behind `exec.Command`. -/
structure Stubs (σ : Type) where
  /-- Remove-by-name on the store: the new contents, or the error. -/
  storeRemove : String → σ → Except String σ
  /-- Combined output and error of running a command line. -/
  combinedOutput : List String → String × Error

/-- State of the collaborators: store contents and the calls made so far. -/
structure World (σ : Type) where
  store : σ
  calls : List Call

/-- Whether a call is the terminate-machine step, `juju terminate-machine <id>`. -/
def Call.isTerminateMachine : Call → Bool
  | .exec ("juju" :: "terminate-machine" :: _) => true
  | _ => false

/-- The method `(a *App) Destroy()` over stubbed collaborators: the returned error and the
state of the collaborators after the call. -/
def App.Destroy {σ : Type} (st : Stubs σ) (a : App) (w : World σ) : Error × World σ :=
  match st.storeRemove a.Name w.store with
  | .error e => (some e, { w with calls := w.calls ++ [.storeRemove a.Name] })
  | .ok s =>
    let u := a.unit
    let argv1 := ["juju", "destroy-service", a.Name]
    let r1 := st.combinedOutput argv1
    let calls1 := w.calls ++ [.storeRemove a.Name, .goCleanup a.Name,
      .logPrintf ("destroying " ++ a.Framework ++ " with name " ++ a.Name),
      .exec argv1, .logPrintf r1.1]
    match r1.2 with
    | some e => (some e, { store := s, calls := calls1 })
    | none =>
      let argv2 := ["juju", "terminate-machine", toString u.Machine]
      let r2 := st.combinedOutput argv2
      let calls2 := calls1 ++ [.logPrintf ("terminating machine " ++ toString u.Machine),
        .exec argv2, .logPrintf r2.1]
      match r2.2 with
      | some e => (some e, { store := s, calls := calls2 })
      | none => (none, { store := s, calls := calls2 })

/-- Stubs for the collaborators of `conf`. -/
structure ConfStubs where
  /-- Result of `repository.GetPath()`. -/
  GetPath : Except String String
  /-- The function `path.Join` on two elements. -/
  Join : String → String → String
  /-- Result of `u.Command(cmd)`: combined output and error. -/
  Command : unit.Unit → String → String × Error
  /-- Result of `goyaml.Unmarshal(data, &c)`: the record after the call and the error. -/
  Unmarshal : String → conf → conf × Error

/-- The method `(a *App) conf()`: the returned record and error and the aggregate after
the call, or a runtime panic. `now` is the clock reading used by log entries. -/
def App.conf (st : ConfStubs) (a : App) (now : Nat) : Outcome (conf × Error × App) :=
  let c : app.conf := ⟨"", ""⟩
  let u := a.unit
  match st.GetPath with
  | .error e =>
    .returned (c, some e, a.Log now ("Got error while getting repository path: " ++ e))
  | .ok uRepo =>
    let cPath := st.Join uRepo "app.conf"
    let quote := String.singleton (Char.ofNat 34)
    let cmd := "echo " ++ quote ++ confSep ++ quote ++ ";cat " ++ cPath
    match st.Command u cmd with
    | (_, some e) =>
      .returned (c, none, a.Log now
        ("Got error while executing command: " ++ e ++ "... Skipping hooks execution"))
    | (o, none) =>
      match (strings.Split o confSep)[1]? with
      | none => .panicked "index out of range"
      | some data =>
        match st.Unmarshal data c with
        | (c1, some e) =>
          .returned (c1, some e, a.Log now ("Got error while parsing yaml: " ++ e))
        | (c1, none) => .returned (c1, none, a)

/-- The record written by the in-place update: identity and machine of the stored
entry, status fields of the report. -/
def mergedUnit (stored report : unit.Unit) : unit.Unit :=
  ⟨stored.InstanceId, report.Ip, report.AgentState, report.InstanceState, stored.Machine⟩

/-! ## Concrete inputs used to instantiate the results -/

/-- An aggregate with no units, teams, variables or log entries. -/
def emptyApp : App := ⟨none, "django", "myapp", "PENDING", [], [], []⟩

/-- Two units of one app. -/
def unitA : unit.Unit := ⟨"i-1", "10.0.0.1", "started", "running", 1⟩

/-- A second unit. -/
def unitB : unit.Unit := ⟨"i-2", "10.0.0.2", "pending", "pending", 2⟩

/-- A status report for the instance of `unitA`, from another machine number. -/
def unitA2 : unit.Unit := ⟨"i-1", "10.0.0.9", "down", "stopped", 7⟩

/-- An aggregate with two units and three teams. -/
def sampleApp : App :=
  ⟨some [("PATH", ⟨"PATH", "/bin", true, ""⟩)], "django", "myapp", "PENDING",
    [unitA, unitB], ["alpha", "beta", "gamma"], []⟩

/-- A store holding the names of its records, with remove-by-name failing when no
record has the name. -/
def listStoreRemove (name : String) (s : List String) : Except String (List String) :=
  if name ∈ s then .ok (s.erase name) else .error "not found"

/-- Stubs where the store removal works on a list of names and the provisioner fails
on `destroy-service`. -/
def failingDestroyService : Stubs (List String) where
  storeRemove := listStoreRemove
  combinedOutput := fun argv =>
    match argv with
    | "juju" :: "destroy-service" :: _ => ("ERROR no such service", some "exit status 1")
    | _ => ("", none)

/-- Stubs where the remote command succeeds with the output `o`. The parser stub stores
the text it is handed in `PreRestart`, which makes that text visible in the result. -/
def commandOutputs (o : String) : ConfStubs where
  GetPath := .ok "/home/application/current"
  Join := fun d f => d ++ "/" ++ f
  Command := fun _ _ => (o, none)
  Unmarshal := fun data c => ({ c with PreRestart := data }, none)

/-! ## Unit reconciliation -/

theorem addOrUpdateLoop_none (u : unit.Unit) (l : List unit.Unit)
    (h : ∀ x ∈ l, x.InstanceId ≠ u.InstanceId) : addOrUpdateLoop u l = none := by
  induction l with
  | nil => rfl
  | cons x xs ih =>
    have hx : x.InstanceId ≠ u.InstanceId := h x (List.mem_cons_self _ _)
    have hxs : ∀ y ∈ xs, y.InstanceId ≠ u.InstanceId :=
      fun y hy => h y (List.mem_cons_of_mem _ hy)
    simp [addOrUpdateLoop, hx, ih hxs]

theorem addOrUpdateLoop_some (u : unit.Unit) (l : List unit.Unit)
    (h : ∃ x ∈ l, x.InstanceId = u.InstanceId) :
    ∃ pre x post, l = pre ++ x :: post ∧ (∀ y ∈ pre, y.InstanceId ≠ u.InstanceId) ∧
      x.InstanceId = u.InstanceId ∧
      addOrUpdateLoop u l = some (pre ++ mergedUnit x u :: post) := by
  induction l with
  | nil => obtain ⟨x, hx, _⟩ := h; cases hx
  | cons z zs ih =>
    by_cases hz : z.InstanceId = u.InstanceId
    · exact ⟨[], z, zs, rfl, by simp, hz, by simp [addOrUpdateLoop, hz, mergedUnit]⟩
    · have h2 : ∃ x ∈ zs, x.InstanceId = u.InstanceId := by
        obtain ⟨x, hx, hxe⟩ := h
        rcases List.mem_cons.mp hx with rfl | hx
        · exact absurd hxe hz
        · exact ⟨x, hx, hxe⟩
      obtain ⟨pre, x, post, hl, hpre, hxe, hloop⟩ := ih h2
      refine ⟨z :: pre, x, post, by simp [hl], ?_, hxe, ?_⟩
      · intro y hy
        rcases List.mem_cons.mp hy with rfl | hy
        · exact hz
        · exact hpre y hy
      · simp [addOrUpdateLoop, hz, hloop]

theorem mergedUnit_InstanceId (x u : unit.Unit) : (mergedUnit x u).InstanceId = x.InstanceId :=
  rfl

/-- C1. `AddOrUpdateUnit` computes the reference merge. When no entry of the unit list has
the `InstanceId` of `u`, the list becomes the old list followed by `u`. Otherwise the list
keeps its length and order: it splits as `pre ++ x :: post` where `x` is the first entry with
that `InstanceId`, and only `x` is rewritten, to a record with the `Ip`, `AgentState` and
`InstanceState` of `u` and its own `InstanceId` and `Machine`. No other field of the
aggregate changes. -/
theorem AddOrUpdateUnit_reference_merge (a : App) (u : unit.Unit) :
    ((∀ x ∈ a.Units, x.InstanceId ≠ u.InstanceId) →
      (a.AddOrUpdateUnit u).Units = a.Units ++ [u] ∧
      (a.AddOrUpdateUnit u).Units.length = a.Units.length + 1) ∧
    ((∃ x ∈ a.Units, x.InstanceId = u.InstanceId) →
      (a.AddOrUpdateUnit u).Units.length = a.Units.length ∧
      ∃ pre x post, a.Units = pre ++ x :: post ∧
        (∀ y ∈ pre, y.InstanceId ≠ u.InstanceId) ∧ x.InstanceId = u.InstanceId ∧
        (a.AddOrUpdateUnit u).Units =
          pre ++ ⟨x.InstanceId, u.Ip, u.AgentState, u.InstanceState, x.Machine⟩ :: post) ∧
    (a.AddOrUpdateUnit u).Env = a.Env ∧ (a.AddOrUpdateUnit u).Framework = a.Framework ∧
    (a.AddOrUpdateUnit u).Name = a.Name ∧ (a.AddOrUpdateUnit u).State = a.State ∧
    (a.AddOrUpdateUnit u).Teams = a.Teams ∧ (a.AddOrUpdateUnit u).Logs = a.Logs := by
  refine ⟨?_, ?_, ?_⟩
  · intro h
    have hl := addOrUpdateLoop_none u a.Units h
    simp [App.AddOrUpdateUnit, hl]
  · intro h
    obtain ⟨pre, x, post, hsplit, hpre, hx, hloop⟩ := addOrUpdateLoop_some u a.Units h
    have hU : (a.AddOrUpdateUnit u).Units = pre ++ mergedUnit x u :: post := by
      simp [App.AddOrUpdateUnit, hloop]
    refine ⟨?_, pre, x, post, hsplit, hpre, hx, hU⟩
    rw [hU, hsplit]; simp
  · unfold App.AddOrUpdateUnit
    cases addOrUpdateLoop u a.Units <;> simp

/-- Instance of C1 on a two-unit list: a report for the first instance rewrites its
status in place. -/
theorem AddOrUpdateUnit_reference_merge_witness :
    (∃ x ∈ sampleApp.Units, x.InstanceId = unitA2.InstanceId) ∧
    (sampleApp.AddOrUpdateUnit unitA2).Units.length = sampleApp.Units.length ∧
    (sampleApp.AddOrUpdateUnit unitA2).Units =
      [⟨"i-1", "10.0.0.9", "down", "stopped", 1⟩, unitB] ∧
    (sampleApp.AddOrUpdateUnit unitA2).Teams = sampleApp.Teams :=
  ⟨⟨unitA, by decide, by decide⟩,
   ((AddOrUpdateUnit_reference_merge sampleApp unitA2).2.1 ⟨unitA, by decide, by decide⟩).1,
   by decide,
   (AddOrUpdateUnit_reference_merge sampleApp unitA2).2.2.2.2.2.2.1⟩

/-- C2. `AddOrUpdateUnit` preserves uniqueness of `InstanceId` in the unit list. -/
theorem AddOrUpdateUnit_preserves_unique (a : App) (u : unit.Unit)
    (h : a.Units.Pairwise (fun x y => x.InstanceId ≠ y.InstanceId)) :
    (a.AddOrUpdateUnit u).Units.Pairwise (fun x y => x.InstanceId ≠ y.InstanceId) := by
  have key : ∀ l : List unit.Unit,
      l.Pairwise (fun x y => x.InstanceId ≠ y.InstanceId) ↔
        (l.map (fun x => x.InstanceId)).Nodup := by
    intro l
    simp [List.Nodup, List.pairwise_map]
  by_cases hex : ∃ x ∈ a.Units, x.InstanceId = u.InstanceId
  · obtain ⟨pre, x, post, hsplit, _, _, hloop⟩ := addOrUpdateLoop_some u a.Units hex
    have hU : (a.AddOrUpdateUnit u).Units = pre ++ mergedUnit x u :: post := by
      simp [App.AddOrUpdateUnit, hloop]
    rw [key] at h ⊢
    rw [hU]
    rw [hsplit] at h
    simpa [mergedUnit_InstanceId] using h
  · have hne : ∀ x ∈ a.Units, x.InstanceId ≠ u.InstanceId :=
      fun x hx hxe => hex ⟨x, hx, hxe⟩
    have hU : (a.AddOrUpdateUnit u).Units = a.Units ++ [u] := by
      simp [App.AddOrUpdateUnit, addOrUpdateLoop_none u a.Units hne]
    rw [hU, List.pairwise_append]
    refine ⟨h, List.pairwise_singleton _ _, ?_⟩
    intro x hx y hy
    rw [List.mem_singleton] at hy
    subst hy
    exact hne x hx

/-- Instance of C2 on a two-unit list and a report for a third instance. -/
theorem AddOrUpdateUnit_preserves_unique_witness :
    sampleApp.Units.Pairwise (fun x y => x.InstanceId ≠ y.InstanceId) ∧
    (sampleApp.AddOrUpdateUnit ⟨"i-3", "10.0.0.3", "pending", "pending", 3⟩).Units.Pairwise
      (fun x y => x.InstanceId ≠ y.InstanceId) :=
  ⟨by decide, AddOrUpdateUnit_preserves_unique sampleApp _ (by decide)⟩

/-! ## Access control -/

theorem findTeamLoop_absent (name : String) (l : List String) (i : Nat) (h : name ∉ l) :
    findTeamLoop name l i = -1 := by
  induction l generalizing i with
  | nil => rfl
  | cons t ts ih =>
    have ht : t ≠ name := fun e => h (e ▸ List.mem_cons_self _ _)
    have hts : name ∉ ts := fun hm => h (List.mem_cons_of_mem _ hm)
    simp [findTeamLoop, ht, ih (i + 1) hts]

theorem findTeamLoop_present (name : String) (l : List String) (i : Nat) (h : name ∈ l) :
    ∃ pre post, l = pre ++ name :: post ∧ name ∉ pre ∧
      findTeamLoop name l i = ((i + pre.length : Nat) : Int) := by
  induction l generalizing i with
  | nil => cases h
  | cons t ts ih =>
    by_cases ht : t = name
    · subst ht
      exact ⟨[], ts, rfl, by simp, by simp [findTeamLoop]⟩
    · have hts : name ∈ ts := by
        rcases List.mem_cons.mp h with e | hm
        · exact absurd e.symm ht
        · exact hm
      obtain ⟨pre, post, hl, hpre, hf⟩ := ih (i + 1) hts
      refine ⟨t :: pre, post, by simp [hl], ?_, ?_⟩
      · intro hm
        rcases List.mem_cons.mp hm with e | hm
        · exact ht e.symm
        · exact hpre hm
      · simp only [findTeamLoop, ht, if_false, hf, List.length_cons]
        congr 1
        omega

theorem hasTeam_iff (a : App) (team : auth.Team) :
    a.hasTeam team = true ↔ team.Name ∈ a.Teams := by
  unfold App.hasTeam App.findTeam
  by_cases h : team.Name ∈ a.Teams
  · obtain ⟨pre, post, _, _, hf⟩ := findTeamLoop_present team.Name a.Teams 0 h
    simp only [hf, h, iff_true, decide_eq_true_eq]
    omega
  · simp [findTeamLoop_absent team.Name a.Teams 0 h, h]

theorem getElem?_at_length (pre post : List String) (x : String) (n : Nat)
    (h : n = pre.length) : (pre ++ x :: post)[n]? = some x := by
  subst h
  induction pre with
  | nil => simp
  | cons p ps ih => simpa using ih

/-- C3. `GrantAccess` returns an error exactly when the team name is already in `Teams`,
and then the aggregate is unchanged; otherwise it returns nil and `Teams` is the old list
with the name appended. Granting a team twice: the second call always fails and leaves the
team count at its value after the first call, and the first call succeeds when the team
was not yet a member. -/
theorem GrantAccess_contract (a : App) (team : auth.Team) :
    (((a.GrantAccess team).1 ≠ none) ↔ team.Name ∈ a.Teams) ∧
    (team.Name ∈ a.Teams → a.GrantAccess team =
      (some "This team has already access to this app", a)) ∧
    (team.Name ∉ a.Teams → (a.GrantAccess team).1 = none ∧
      (a.GrantAccess team).2.Teams = a.Teams ++ [team.Name]) ∧
    (((a.GrantAccess team).2.GrantAccess team).1 ≠ none ∧
      ((a.GrantAccess team).2.GrantAccess team).2.Teams.length =
        (a.GrantAccess team).2.Teams.length) := by
  have hmem : ∀ b : App, team.Name ∈ b.Teams → b.GrantAccess team =
      (some "This team has already access to this app", b) := by
    intro b h
    simp [App.GrantAccess, (hasTeam_iff b team).mpr h]
  have hin := hmem a
  have hout : team.Name ∉ a.Teams → a.GrantAccess team =
      (none, { a with Teams := a.Teams ++ [team.Name] }) := by
    intro h
    have hf : a.hasTeam team = false := by
      cases hb : a.hasTeam team
      · rfl
      · exact absurd ((hasTeam_iff a team).mp hb) h
    simp [App.GrantAccess, hf]
  have hafter : team.Name ∈ (a.GrantAccess team).2.Teams := by
    by_cases h : team.Name ∈ a.Teams
    · rw [hin h]; exact h
    · rw [hout h]; simp
  refine ⟨?_, hin, ?_, ?_⟩
  · by_cases h : team.Name ∈ a.Teams
    · simp [hin h, h]
    · simp [hout h, h]
  · intro h
    simp [hout h]
  · rw [hmem (a.GrantAccess team).2 hafter]
    simp

/-- Instance of C3: a team that is not a member is granted access, and a second grant
fails without changing the team count. -/
theorem GrantAccess_contract_witness :
    (⟨"delta"⟩ : auth.Team).Name ∉ sampleApp.Teams ∧
    (sampleApp.GrantAccess ⟨"delta"⟩).1 = none ∧
    (sampleApp.GrantAccess ⟨"delta"⟩).2.Teams = ["alpha", "beta", "gamma", "delta"] ∧
    ((sampleApp.GrantAccess ⟨"delta"⟩).2.GrantAccess ⟨"delta"⟩).1 ≠ none ∧
    ((sampleApp.GrantAccess ⟨"delta"⟩).2.GrantAccess ⟨"delta"⟩).2.Teams.length = 4 :=
  ⟨by decide,
   ((GrantAccess_contract sampleApp ⟨"delta"⟩).2.2.1 (by decide)).1,
   ((GrantAccess_contract sampleApp ⟨"delta"⟩).2.2.1 (by decide)).2,
   (GrantAccess_contract sampleApp ⟨"delta"⟩).2.2.2.1,
   by decide⟩

theorem RevokeAccess_absent (a : App) (team : auth.Team) (h : team.Name ∉ a.Teams) :
    a.RevokeAccess team =
      .returned (some "This team does not have access to this app", a) := by
  simp [App.RevokeAccess, App.findTeam, findTeamLoop_absent team.Name a.Teams 0 h]

/-- Swap-remove on a list split at the first occurrence of the team name: with nothing
after it the list is cut before it, otherwise the last entry takes its place. -/
theorem RevokeAccess_present (a : App) (team : auth.Team) (pre post : List String)
    (hsplit : a.Teams = pre ++ team.Name :: post) (hpre : team.Name ∉ pre) :
    ∃ rest, a.RevokeAccess team = .returned (none, { a with Teams := pre ++ rest }) ∧
      rest.Perm post := by
  have hmem : team.Name ∈ a.Teams := by rw [hsplit]; simp
  obtain ⟨pre2, post2, hl2, hpre2, hf⟩ := findTeamLoop_present team.Name a.Teams 0 hmem
  have hlen : pre2.length = pre.length := by
    rw [hsplit] at hl2
    by_contra hne
    rcases Nat.lt_or_gt_of_ne hne with hlt | hgt
    · have h1 : (pre ++ team.Name :: post)[pre2.length]? = some team.Name := by
        rw [hl2]; exact getElem?_at_length pre2 post2 team.Name _ rfl
      rw [List.getElem?_append_left hlt] at h1
      exact hpre (List.getElem?_mem h1)
    · have h1 : (pre2 ++ team.Name :: post2)[pre.length]? = some team.Name := by
        rw [← hl2]; exact getElem?_at_length pre post team.Name _ rfl
      rw [List.getElem?_append_left hgt] at h1
      exact hpre2 (List.getElem?_mem h1)
  have hidx : a.findTeam team = (pre.length : Int) := by
    unfold App.findTeam
    rw [hf, ← hlen]
    simp
  have hlast : (a.Teams.length : Int) - 1 = ((pre.length + post.length : Nat) : Int) := by
    rw [hsplit]
    simp only [List.length_append, List.length_cons]
    push_cast
    omega
  have hnotneg : ¬ ((pre.length : Int) < 0) := by omega
  have hnotneg2 : ¬ (((pre.length + post.length : Nat) : Int) < 0) := by omega
  have hi : sliceIndex a.Teams (pre.length : Int) = some team.Name := by
    unfold sliceIndex
    rw [if_neg hnotneg, hsplit]
    exact getElem?_at_length pre post team.Name _ (by simp)
  rcases List.eq_nil_or_concat post with hp | ⟨post1, z, hp⟩
  · subst hp
    refine ⟨[], ?_, List.Perm.refl _⟩
    have hl : sliceIndex a.Teams ((pre.length + ([] : List String).length : Nat) : Int) =
        some team.Name := by
      simpa using hi
    unfold App.RevokeAccess
    simp only [hidx, hlast, hi, hl, if_neg hnotneg]
    simp [hsplit]
  · rw [List.concat_eq_append] at hp
    subst hp
    refine ⟨z :: post1, ?_, (List.perm_append_singleton z post1).symm⟩
    · have hl : sliceIndex a.Teams ((pre.length + (post1 ++ [z]).length : Nat) : Int) =
          some z := by
        unfold sliceIndex
        rw [if_neg hnotneg2, hsplit]
        have e : pre ++ team.Name :: (post1 ++ [z]) = (pre ++ team.Name :: post1) ++ [z] := by
          simp
        have hn : (((pre.length + (post1 ++ [z]).length : Nat) : Int)).toNat =
            (pre ++ team.Name :: post1).length := by
          simp
          omega
        rw [e, hn]
        exact List.getElem?_concat_length _ _
      unfold App.RevokeAccess
      simp only [hidx, hlast, hi, hl, if_neg hnotneg]
      have hset : (a.Teams.set (pre.length : Int).toNat z) =
          (pre ++ z :: post1) ++ [z] := by
        rw [hsplit]
        simp
      have htake : ((pre ++ z :: post1) ++ [z]).take
          (((pre.length + (post1 ++ [z]).length : Nat) : Int)).toNat = pre ++ z :: post1 := by
        have hn : (((pre.length + (post1 ++ [z]).length : Nat) : Int)).toNat =
            (pre ++ z :: post1).length := by
          simp
          omega
        rw [hn]
        exact List.take_left _ _
      rw [hset, htake]

/-- C4. On a team list without duplicates: revoking a team that is absent returns the
error and leaves the aggregate unchanged; revoking a team that is present returns nil, the
list has one entry fewer, its entries are the old entries without that name (a
rearrangement of the old list with the name erased, still free of duplicates), a
following `hasTeam` for the team is false, and no other field changes. -/
theorem RevokeAccess_contract (a : App) (team : auth.Team) (hnd : a.Teams.Nodup) :
    (team.Name ∉ a.Teams → a.RevokeAccess team =
      .returned (some "This team does not have access to this app", a)) ∧
    (team.Name ∈ a.Teams → ∃ b, a.RevokeAccess team = .returned (none, b) ∧
      b.Teams.length + 1 = a.Teams.length ∧
      (∀ x, x ∈ b.Teams ↔ x ∈ a.Teams ∧ x ≠ team.Name) ∧
      b.Teams.Perm (a.Teams.erase team.Name) ∧ b.Teams.Nodup ∧
      b.hasTeam team = false ∧
      b.Env = a.Env ∧ b.Framework = a.Framework ∧ b.Name = a.Name ∧ b.State = a.State ∧
      b.Units = a.Units ∧ b.Logs = a.Logs) := by
  refine ⟨RevokeAccess_absent a team, ?_⟩
  intro hmem
  obtain ⟨pre, post, hsplit, hpre, _⟩ := findTeamLoop_present team.Name a.Teams 0 hmem
  obtain ⟨rest, hrun, hperm⟩ := RevokeAccess_present a team pre post hsplit hpre
  have herase : a.Teams.erase team.Name = pre ++ post := by
    rw [hsplit, List.erase_append_right _ hpre]
    simp
  have hp : (pre ++ rest).Perm (a.Teams.erase team.Name) := by
    rw [herase]
    exact List.Perm.append_left pre hperm
  have hnd2 : (pre ++ rest).Nodup := (List.Perm.nodup_iff hp).mpr (List.Nodup.erase _ hnd)
  have hmem2 : ∀ x, x ∈ pre ++ rest ↔ x ∈ a.Teams ∧ x ≠ team.Name := by
    intro x
    rw [List.Perm.mem_iff hp, List.Nodup.mem_erase_iff hnd]
    tauto
  refine ⟨{ a with Teams := pre ++ rest }, hrun, ?_, hmem2, hp, hnd2, ?_,
    rfl, rfl, rfl, rfl, rfl, rfl⟩
  · show (pre ++ rest).length + 1 = a.Teams.length
    rw [List.Perm.length_eq hp, herase, hsplit]
    simp
    omega
  · cases hb : App.hasTeam { a with Teams := pre ++ rest } team
    · rfl
    · have hin := (hasTeam_iff _ team).mp hb
      exact absurd rfl ((hmem2 team.Name).mp hin).2

/-- Instance of C4 on the three-team list: revoking the first team moves the last team
into its place. -/
theorem RevokeAccess_contract_witness :
    sampleApp.Teams.Nodup ∧ (⟨"alpha"⟩ : auth.Team).Name ∈ sampleApp.Teams ∧
    sampleApp.RevokeAccess ⟨"alpha"⟩ =
      .returned (none, { sampleApp with Teams := ["gamma", "beta"] }) ∧
    ∃ b, sampleApp.RevokeAccess ⟨"alpha"⟩ = .returned (none, b) ∧
      b.Teams.length + 1 = sampleApp.Teams.length ∧ b.hasTeam ⟨"alpha"⟩ = false := by
  refine ⟨by decide, by decide, by decide, ?_⟩
  obtain ⟨b, h1, h2, _, _, _, h3, _⟩ :=
    (RevokeAccess_contract sampleApp ⟨"alpha"⟩ (by decide)).2 (by decide)
  exact ⟨b, h1, h2, h3⟩

/-! ## Destroy -/

/-- C5. With stubbed store and provisioner: when the store removal succeeds and the
`destroy-service` command fails with error `e`, `Destroy` returns `e`, the store holds the
contents left by the removal, and the calls made are exactly the removal, the cleanup
dispatch, the `destroy-service` command and two log lines, none of which is the
`terminate-machine` command. -/
theorem Destroy_stops_at_destroy_service {σ : Type} (st : Stubs σ) (a : App) (w : World σ)
    (s : σ) (out e : String)
    (hrm : st.storeRemove a.Name w.store = .ok s)
    (hds : st.combinedOutput ["juju", "destroy-service", a.Name] = (out, some e)) :
    (a.Destroy st w).1 = some e ∧ (a.Destroy st w).2.store = s ∧
    (a.Destroy st w).2.calls = w.calls ++
      [.storeRemove a.Name, .goCleanup a.Name,
       .logPrintf ("destroying " ++ a.Framework ++ " with name " ++ a.Name),
       .exec ["juju", "destroy-service", a.Name], .logPrintf out] ∧
    ∀ c ∈ (a.Destroy st w).2.calls.drop w.calls.length, c.isTerminateMachine = false := by
  have hrun : a.Destroy st w = (some e, { store := s, calls := w.calls ++
      [.storeRemove a.Name, .goCleanup a.Name,
       .logPrintf ("destroying " ++ a.Framework ++ " with name " ++ a.Name),
       .exec ["juju", "destroy-service", a.Name], .logPrintf out] }) := by
    simp [App.Destroy, hrm, hds]
  rw [hrun]
  refine ⟨rfl, rfl, rfl, ?_⟩
  intro c hc
  simp only [List.drop_left] at hc
  simp only [List.mem_cons, List.mem_singleton, List.not_mem_nil, or_false] at hc
  rcases hc with h | h | h | h | h <;> subst h <;> simp [Call.isTerminateMachine]

/-- Instance of C5: the record of the app is gone from a two-record store and the only
command run is `destroy-service`. -/
theorem Destroy_stops_at_destroy_service_witness :
    (App.Destroy failingDestroyService sampleApp ⟨["myapp", "other"], []⟩).1 =
      some "exit status 1" ∧
    (App.Destroy failingDestroyService sampleApp ⟨["myapp", "other"], []⟩).2.store =
      ["other"] ∧
    ∀ c ∈ (App.Destroy failingDestroyService sampleApp
        ⟨["myapp", "other"], []⟩).2.calls.drop 0, c.isTerminateMachine = false :=
  ⟨(Destroy_stops_at_destroy_service failingDestroyService sampleApp ⟨["myapp", "other"], []⟩
      ["other"] "ERROR no such service" "exit status 1" (by rfl) (by rfl)).1,
   (Destroy_stops_at_destroy_service failingDestroyService sampleApp ⟨["myapp", "other"], []⟩
      ["other"] "ERROR no such service" "exit status 1" (by rfl) (by rfl)).2.1,
   (Destroy_stops_at_destroy_service failingDestroyService sampleApp ⟨["myapp", "other"], []⟩
      ["other"] "ERROR no such service" "exit status 1" (by rfl) (by rfl)).2.2.2⟩

/-! ## Environment variables -/

theorem lookup_filter_ne (name n : String) (l : List (String × EnvVar)) (h : n ≠ name) :
    (l.filter (fun p => decide (p.1 ≠ name))).lookup n = l.lookup n := by
  induction l with
  | nil => rfl
  | cons p ps ih =>
    obtain ⟨k, v⟩ := p
    simp only [ne_eq, decide_not] at ih ⊢
    by_cases hk : k = name
    · subst hk
      have hb : (n == k) = false := by simpa using h
      simp [List.filter_cons, List.lookup_cons, hb, ih]
    · by_cases hn : n = k
      · subst hn
        simp [List.filter_cons, List.lookup_cons, hk]
      · have hb : (n == k) = false := by simpa using hn
        simp [List.filter_cons, List.lookup_cons, hk, hb, ih]

/-- C6, counterexample. The variable set by `SetEnv("SECRET", "xyz", false)` is private and
its rendering is not the text with two spaces after the asterisks. -/
theorem EnvVar_String_private_not_two_spaces :
    ((emptyApp.SetEnv 0 "SECRET" "xyz" false).GetEnv "SECRET").1.Public = false ∧
    ((emptyApp.SetEnv 0 "SECRET" "xyz" false).GetEnv "SECRET").1.String ≠
      "SECRET=***  (private variable)" ∧
    ¬ (∀ e : EnvVar, e.Public = false → e.String = e.Name ++ "=***  (private variable)") := by
  refine ⟨by decide, by decide, ?_⟩
  intro h
  exact absurd (h ⟨"SECRET", "xyz", false, ""⟩ rfl) (by decide)

/-- C6, amended. For every `EnvVar` with `Public = false`, `String()` is the `Name` followed
by an equals sign, three asterisks, one space and the text `(private variable)`; the
variable set by `SetEnv("SECRET", "xyz", false)` on any aggregate renders as
`SECRET=*** (private variable)`. -/
theorem EnvVar_String_private (e : EnvVar) (h : e.Public = false) :
    e.String = e.Name ++ "=*** (private variable)" ∧
    ∀ (a : App) (now : Nat), ((a.SetEnv now "SECRET" "xyz" false).GetEnv "SECRET").1.String =
      "SECRET=*** (private variable)" := by
  constructor
  · simp only [EnvVar.String, h, Bool.false_eq_true, if_false]
    rw [String.append_assoc, String.append_assoc]
    rfl
  · intro a now
    have hg : ((a.SetEnv now "SECRET" "xyz" false).GetEnv "SECRET").1 =
        ⟨"SECRET", "xyz", false, ""⟩ := by
      simp [App.SetEnv, App.GetEnv, App.Log, List.lookup_cons]
    rw [hg]
    decide

/-- Instance of C6 (amended) on a private variable. -/
theorem EnvVar_String_private_witness :
    (⟨"TOKEN", "abc", false, "mysql"⟩ : EnvVar).Public = false ∧
    (⟨"TOKEN", "abc", false, "mysql"⟩ : EnvVar).String = "TOKEN=*** (private variable)" :=
  ⟨rfl, (EnvVar_String_private ⟨"TOKEN", "abc", false, "mysql"⟩ rfl).1⟩

/-- C7. The rendering of a private variable depends on its `Name` only: two variables
with `Public = false` and the same `Name` render to the same text, whatever their `Value`
and `ServiceName`. -/
theorem EnvVar_String_private_hides_value (e1 e2 : EnvVar)
    (h1 : e1.Public = false) (h2 : e2.Public = false) (hn : e1.Name = e2.Name) :
    e1.String = e2.String := by
  simp [EnvVar.String, h1, h2, hn]

/-- Instance of C7: two private variables named `SECRET` with different values. -/
theorem EnvVar_String_private_hides_value_witness :
    (⟨"SECRET", "xyz", false, ""⟩ : EnvVar).String =
      (⟨"SECRET", "another value", false, "redis"⟩ : EnvVar).String :=
  EnvVar_String_private_hides_value ⟨"SECRET", "xyz", false, ""⟩
    ⟨"SECRET", "another value", false, "redis"⟩ rfl rfl rfl

/-- C8. After `SetEnv(name, value, public)` on any aggregate (nil or populated map),
`GetEnv(name)` returns nil and the variable with that `Name`, `Value` and `Public` flag;
the map holds that binding and no other binding for the name; every other name reads as
before; and a public variable renders as the name, an equals sign and the value. -/
theorem SetEnv_GetEnv_roundtrip (a : App) (now : Nat) (name value : String) (pub : Bool) :
    (a.SetEnv now name value pub).GetEnv name = (⟨name, value, pub, ""⟩, none) ∧
    (∃ rest, (a.SetEnv now name value pub).Env = some ((name, ⟨name, value, pub, ""⟩) :: rest) ∧
      ∀ p ∈ rest, p.1 ≠ name) ∧
    (∀ n, n ≠ name → (a.SetEnv now name value pub).GetEnv n = a.GetEnv n) ∧
    ((a.SetEnv now name value true).GetEnv name).1.String = name ++ "=" ++ value := by
  refine ⟨?_, ?_, ?_, ?_⟩
  · simp [App.SetEnv, App.GetEnv, App.Log, List.lookup_cons]
  · refine ⟨_, rfl, ?_⟩
    intro p hp
    have := (List.mem_filter.mp hp).2
    simpa using this
  · intro n hn
    have hb : (n == name) = false := by simpa using hn
    cases hE : a.Env with
    | none => simp [App.SetEnv, App.GetEnv, App.Log, List.lookup_cons, hE, hb]
    | some l =>
      simp only [App.SetEnv, App.GetEnv, App.Log, List.lookup_cons, hE, hb]
      rw [lookup_filter_ne name n l hn]
  · have hg : ((a.SetEnv now name value true).GetEnv name).1 = ⟨name, value, true, ""⟩ := by
      simp [App.SetEnv, App.GetEnv, App.Log, List.lookup_cons]
    rw [hg]
    simp [EnvVar.String]

/-- Instance of C8: `SetEnv("DB_HOST", "localhost", true)` on the nil map and on a
populated map, then `GetEnv("DB_HOST")`; the variable `PATH` of the populated map is
still read back. -/
theorem SetEnv_GetEnv_roundtrip_witness :
    (emptyApp.SetEnv 0 "DB_HOST" "localhost" true).GetEnv "DB_HOST" =
      (⟨"DB_HOST", "localhost", true, ""⟩, none) ∧
    (sampleApp.SetEnv 5 "DB_HOST" "localhost" true).GetEnv "PATH" =
      (⟨"PATH", "/bin", true, ""⟩, none) ∧
    ((sampleApp.SetEnv 5 "DB_HOST" "localhost" true).GetEnv "DB_HOST").1.String =
      "DB_HOST=localhost" :=
  ⟨(SetEnv_GetEnv_roundtrip emptyApp 0 "DB_HOST" "localhost" true).1,
   ((SetEnv_GetEnv_roundtrip sampleApp 5 "DB_HOST" "localhost" true).2.2.1 "PATH"
      (by decide)).trans (by decide),
   ((SetEnv_GetEnv_roundtrip sampleApp 5 "DB_HOST" "localhost" true).2.2.2).trans (by decide)⟩

/-! ## Configuration retrieval -/

/-- On an output with one separator `conf` returns, and the parser is handed the text
after the separator. -/
theorem conf_hands_text_after_separator (a : App) (now : Nat) :
    App.conf (commandOutputs "motd========pre-restart: a.sh") a now =
      .returned (⟨"pre-restart: a.sh", ""⟩, none, a) := by
  rfl

/-- C10, failing input. When the remote command succeeds with an empty output, which
holds no separator, `conf` indexes past the end of the split result and panics, for every
aggregate. -/
theorem conf_panics_without_separator (a : App) (now : Nat) :
    App.conf (commandOutputs "") a now = .panicked "index out of range" := by
  rfl

end app
